import Mathlib

/-!
# Verification of the `module-settings` key/value store

Shallow embedding of the C sources of the `settings` module and proofs about
the claims of its specification.

The repository ships two variants of the store:

* the **bounded** variant (`src/settings.c`): every `Pair` holds fixed-size
  inline buffers `char key[CONFIG_KEY_LENGTH]`, `char value[CONFIG_VALUE_LENGTH]`;
* the **dynamic** variant (`src/unnamed/part_001`, second half): every `Pair`
  holds heap pointers that are grown with `realloc` on demand.

C strings are modelled as `List Char` (the bytes up to, not including, the
terminating NUL; the file format is a single-byte/ASCII-compatible charset per
the spec).  Nullable pointers are modelled as `Option`.  Places where the C
code performs an out-of-bounds access (undefined behavior) are modelled by an
`Option` result whose `none` marks the UB.  Allocation is modelled by an
oracle `alloc : Nat → Bool` together with a counter `ctr`: the `ctr`-th call
to `malloc`/`realloc` succeeds iff `alloc ctr`, and the counter advances
exactly when the C code performs an allocation call.
-/

namespace Settings

/-! ## Common string utilities (ctype / stdlib) -/

/-- `isspace` of `ctype.h` in the C locale: the six ASCII whitespace
characters. -/
def isspace (c : Char) : Bool :=
  c = ' ' || c = '\t' || c = '\n' || c = '\x0b' || c = '\x0c' || c = '\r'

/-- Removing trailing whitespace: the second `while` loop of `trim`, which
moves `end` left over whitespace characters. -/
def dropTrailing (s : List Char) : List Char :=
  (s.reverse.dropWhile isspace).reverse

/-- `trim` (identical in both variants, `settings.c:53` and `part_001`):

```
size_t end = strlen(str) - 1;
while (isspace((unsigned char) str[begin])) ++begin;
while ((end >= begin) && isspace((unsigned char) str[end])) --end;
for (i = begin; i <= end; ++i) str[i - begin] = str[i];
str[i - begin] = '\0';
```

The first loop is `dropWhile isspace`, the second drops trailing whitespace
(for a nonempty string it stops no later than at `begin`, because `begin`
points at a non-space character whenever `begin < strlen`).  For the **empty**
string, `end = strlen(str) - 1` underflows to `SIZE_MAX` (`end >= begin` is
then always true) and `str[end]` reads out of bounds: undefined behavior,
modelled as `none`.  The `NULL` check of the C function is handled at the call
sites, which pass non-null buffers. -/
def trim (s : List Char) : Option (List Char) :=
  if s.isEmpty then none
  else some (dropTrailing (s.dropWhile isspace))

/-- Value of a decimal digit character. -/
def digitVal (c : Char) : Int :=
  ((c.toNat - '0'.toNat : Nat) : Int)

/-- Accumulate the leading run of decimal digits, as `atoi` does. -/
def atoiLoop : List Char → Int → Int
  | c :: rest, acc =>
    if c.isDigit then atoiLoop rest (acc * 10 + digitVal c) else acc
  | [], acc => acc

/-- `atoi` of `stdlib.h`: skip leading whitespace, read an optional sign and a
leading run of decimal digits; malformed text parses as `0`, no error. -/
def atoi (s : List Char) : Int :=
  match s.dropWhile isspace with
  | '-' :: rest => - atoiLoop rest 0
  | '+' :: rest => atoiLoop rest 0
  | rest => atoiLoop rest 0

/-- Decimal digits of a natural number, most significant first (fuel-based;
40 units of fuel cover every value `%d` can be asked to print). -/
def natDigits : Nat → Nat → List Char
  | 0, _ => []
  | fuel + 1, n =>
    if n < 10 then [Char.ofNat ('0'.toNat + n)]
    else natDigits fuel (n / 10) ++ [Char.ofNat ('0'.toNat + n % 10)]

/-- The text `snprintf(..., "%d", v)` produces before any size limit is
applied: optional minus sign followed by the decimal digits. -/
def intRepr (v : Int) : List Char :=
  if v < 0 then '-' :: natDigits 40 v.natAbs else natDigits 40 v.toNat

/-! ## Bounded variant (`src/settings.c`)

Keys and values live in fixed inline buffers; `settings_set_string` rejects
anything that does not fit.  Model suffix: `B`. -/

/-- Maximum length for keys, including the NUL terminator. -/
def CONFIG_KEY_LENGTH : Nat := 128

/-- Maximum length for values, including the NUL terminator. -/
def CONFIG_VALUE_LENGTH : Nat := 128

/-- Buffer size for reading lines in files (`fgets` buffer). -/
def CONFIG_LINE_LENGTH : Nat := 1024

/-- `struct Pair` of the bounded variant: the strings stored in the two
inline buffers.  The `next`/`prev` links are represented by the position of
the pair inside the store's list. -/
structure PairB where
  key : List Char
  value : List Char
  deriving DecidableEq

/-- `struct Settings` of the bounded variant: the pairs in list order
(`first` to `last`). -/
abbrev StoreB := List PairB

/-- `copy_pair` (`settings.c:82`): `strncpy` both strings into the fixed
buffers and force a NUL at the last byte, i.e. truncate to the buffer
capacity minus one. -/
def copy_pairB (srcKey srcVal : List Char) : PairB :=
  ⟨srcKey.take (CONFIG_KEY_LENGTH - 1), srcVal.take (CONFIG_VALUE_LENGTH - 1)⟩

/-- `strncmp(a, b, n) == 0` for NUL-free strings `a`, `b`: the comparison
stops at the first difference, after a NUL in both, or after `n`
characters, so it holds iff the first `n` characters agree. -/
def strncmpEq (n : Nat) (a b : List Char) : Bool :=
  a.take n == b.take n

/-- `keys_match` (`settings.c:116`): both keys non-null and
`strncmp(key1, key2, CONFIG_KEY_LENGTH) == 0`. -/
def keys_matchB (k1 k2 : Option (List Char)) : Bool :=
  match k1, k2 with
  | some a, some b => strncmpEq CONFIG_KEY_LENGTH a b
  | _, _ => false

/-- The linear walk of `find_pair` (`settings.c:129`) over the pair list:
first pair whose key matches. -/
def findPairListB : List PairB → Option (List Char) → Option PairB
  | [], _ => none
  | p :: rest, k => if keys_matchB (some p.key) k then some p else findPairListB rest k

/-- `find_pair`: `NULL` settings yield `NULL`. -/
def find_pairB (st : Option StoreB) (key : Option (List Char)) : Option PairB :=
  match st with
  | some ps => findPairListB ps key
  | none => none

/-- `settings_get_string` (`settings.c:234`): return the found pair's value,
else the (possibly null) default. -/
def settings_get_stringB (st : Option StoreB) (key defaultValue : Option (List Char)) :
    Option (List Char) :=
  match find_pairB st key with
  | some p => some p.value
  | none => defaultValue

/-- `settings_get_int` (`settings.c:241`): `atoi` of the found value, else the
default. -/
def settings_get_intB (st : Option StoreB) (key : Option (List Char)) (defaultValue : Int) :
    Int :=
  match find_pairB st key with
  | some p => atoi p.value
  | none => defaultValue

/-- `settings_get_float` (`settings.c:249`): `atof` of the found value, else
the default.  The textual-to-float conversion `atof` is kept abstract (the
claims about this function only exercise the not-found branch); the control
flow is the one of the C function. -/
def settings_get_floatB {F : Type} (atofModel : List Char → F)
    (st : Option StoreB) (key : Option (List Char)) (defaultValue : F) : F :=
  match find_pairB st key with
  | some p => atofModel p.value
  | none => defaultValue

/-- The replace branch of `settings_set_string`: `find_pair` walks the list
and `copy_pair` overwrites the found pair in place.  Returns `none` when no
pair matches (so the caller must create a new pair). -/
def setInListB : List PairB → List Char → List Char → Option (List PairB)
  | [], _, _ => none
  | p :: rest, k, v =>
    if keys_matchB (some p.key) (some k) then some (copy_pairB k v :: rest)
    else
      match setInListB rest k v with
      | some rest' => some (p :: rest')
      | none => none

/-- `settings_set_string` after the null and length checks
(`settings.c:272-293`): replace the first matching pair in place, else
`create_pair` (one `malloc`, which consumes one allocation oracle entry) and
append it at `last`. -/
def setStringBodyB (st : StoreB) (k v : List Char) (alloc : Nat → Bool) (ctr : Nat) :
    StoreB × Bool × Nat :=
  match setInListB st k v with
  | some st' => (st', true, ctr)
  | none =>
    if alloc ctr then (st ++ [copy_pairB k v], true, ctr + 1)
    else (st, false, ctr + 1)

/-- `settings_set_string` after the null checks (`settings.c:267` on): the
length check `strlen(key) >= CONFIG_KEY_LENGTH || strlen(value) >=
CONFIG_VALUE_LENGTH` rejects without mutating, then the body runs. -/
def setStringCoreB (st : StoreB) (k v : List Char) (alloc : Nat → Bool) (ctr : Nat) :
    StoreB × Bool × Nat :=
  if CONFIG_KEY_LENGTH ≤ k.length ∨ CONFIG_VALUE_LENGTH ≤ v.length then (st, false, ctr)
  else setStringBodyB st k v alloc ctr

/-- `settings_set_string` (`settings.c:258`): settings, key and value are
mandatory; returns the store after the call, the success flag, and the
advanced allocation counter. -/
def settings_set_stringB (st : Option StoreB) (key value : Option (List Char))
    (alloc : Nat → Bool) (ctr : Nat) : Option StoreB × Bool × Nat :=
  match st, key, value with
  | some s, some k, some v =>
    let r := setStringCoreB s k v alloc ctr
    (some r.1, r.2.1, r.2.2)
  | _, _, _ => (st, false, ctr)

/-- `settings_set_int` (`settings.c:297`): `snprintf(value_str,
CONFIG_VALUE_LENGTH, "%d", value)` formats the decimal text, truncated to
`CONFIG_VALUE_LENGTH - 1` characters, then delegates to
`settings_set_string`. -/
def settings_set_intB (st : Option StoreB) (key : Option (List Char)) (v : Int)
    (alloc : Nat → Bool) (ctr : Nat) : Option StoreB × Bool × Nat :=
  settings_set_stringB st key (some ((intRepr v).take (CONFIG_VALUE_LENGTH - 1))) alloc ctr

/-- One line of `settings_save` output: `fprintf(f, "%s = %s\n", key, value)`
without the final newline. -/
def lineCore (p : PairB) : List Char :=
  p.key ++ ' ' :: '=' :: ' ' :: p.value

/-- The bytes `settings_save` writes: one `"<key> = <value>\n"` line per pair,
in list order. -/
def saveContentB : StoreB → List Char
  | [] => []
  | p :: rest => lineCore p ++ '\n' :: saveContentB rest

/-- `settings_save` (`settings.c:209`): fails on null settings or path and on
`fopen` failure; otherwise writes every pair in order.  The result is the
success flag, the bytes written (if any), and the store as it is after the
call — the C function only reads the pair list. -/
def settings_saveB (st : Option StoreB) (pathPresent openOk : Bool) :
    Bool × Option (List Char) × Option StoreB :=
  match st, pathPresent with
  | some s, true =>
    if openOk then (true, some (saveContentB s), some s)
    else (false, none, some s)
  | _, _ => (false, none, st)

/-! ### `settings_load` (`settings.c:162`) -/

/-- One `fgets(line, n + 1, f)` call on the remaining file bytes: read at most
`n` characters, stopping after a newline.  Returns the line read and the
remaining bytes. -/
def fgetsTake : Nat → List Char → List Char × List Char
  | _, [] => ([], [])
  | 0, rest => ([], rest)
  | n + 1, c :: rest =>
    if c = '\n' then ([c], rest)
    else
      let r := fgetsTake n rest
      (c :: r.1, r.2)

/-- The `while (fgets(line, CONFIG_LINE_LENGTH, f) != NULL)` loop's sequence
of lines, fuel-based (each successful `fgets` consumes at least one byte, so
`content.length` units of fuel suffice). -/
def readLinesAux : Nat → List Char → List (List Char)
  | 0, _ => []
  | fuel + 1, content =>
    match content with
    | [] => []
    | _ =>
      let r := fgetsTake (CONFIG_LINE_LENGTH - 1) content
      r.1 :: readLinesAux fuel r.2

/-- All lines `fgets` produces for the given file content. -/
def readLines (content : List Char) : List (List Char) :=
  readLinesAux content.length content

/-- The body of the load loop for one line (`settings.c:177-203`):

```
char *p = strchr(line, '=');
if (p != NULL) {
  const size_t key_len = p - line;
  const size_t val_len = strlen(p + 1);
  strncpy(key, line, p - line);
  strncpy(val, p + 1, strlen(p + 1));
  key[key_len - 1] = '\0';
  val[val_len - 1] = '\0';
  trim(key); trim(val);
  settings_set_string(settings, key, val);
}
```

`some none` means the line has no `=` and is skipped.  Writing the NUL at
index `key_len - 1` (resp. `val_len - 1`) keeps only the first `key_len - 1`
characters, i.e. `dropLast` of the part; when a part is empty the store at
index `(size_t)(-1)` is out of bounds — undefined behavior, modelled `none`
(as is `trim` of an empty part). -/
def splitLineB (line : List Char) : Option (Option (List Char × List Char)) :=
  let before := line.takeWhile (fun c => c != '=')
  match line.dropWhile (fun c => c != '=') with
  | [] => some none
  | _ :: after =>
    if before.length = 0 ∨ after.length = 0 then none
    else
      match trim before.dropLast, trim after.dropLast with
      | some k, some v => some (some (k, v))
      | _, _ => none

/-- The load loop over the lines read by `fgets`: split each line, silently
skip lines without `=`, insert the rest via `settings_set_string` ignoring its
result.  `none` marks a line whose processing is undefined behavior. -/
def loadLinesB : List (List Char) → StoreB → (Nat → Bool) → Nat → Option (StoreB × Nat)
  | [], st, _, ctr => some (st, ctr)
  | line :: rest, st, alloc, ctr =>
    match splitLineB line with
    | none => none
    | some none => loadLinesB rest st alloc ctr
    | some (some (k, v)) =>
      let r := setStringCoreB st k v alloc ctr
      loadLinesB rest r.1 alloc r.2.2

/-- `settings_load` (`settings.c:162`): fails on null settings/path and when
the file cannot be opened (`path = some none`); otherwise processes every
line and returns success.  The outer `none` marks undefined behavior inside
the loop. -/
def settings_loadB (st : Option StoreB) (path : Option (Option (List Char)))
    (alloc : Nat → Bool) (ctr : Nat) : Option (Option StoreB × Bool × Nat) :=
  match st, path with
  | some s, some (some content) =>
    match loadLinesB (readLines content) s alloc ctr with
    | some r => some (some r.1, true, r.2)
    | none => none
  | some s, some none => some (some s, false, ctr)
  | _, _ => some (st, false, ctr)

/-! ## Dynamic variant (`src/unnamed/part_001`, the `settings.c` half)

Keys and values are heap buffers grown with `realloc`.  Model suffix: `D`.
A pair's `key`/`value` pointer can be `NULL` (after a failed `realloc` the
code stores the `NULL` result back into the pair), hence `Option`. -/

/-- `struct Pair` of the dynamic variant: heap pointers for key and value. -/
structure PairD where
  key : Option (List Char)
  value : Option (List Char)
  deriving DecidableEq

/-- `struct Settings` of the dynamic variant. -/
abbrev StoreD := List PairD

/-- `strlen` as used inside `resize` (only reached on non-null arrays thanks
to the `||` short-circuit). -/
def strlenD : Option (List Char) → Nat
  | some s => s.length
  | none => 0

/-- The string a successful `realloc(array, size)` call leaves behind once
`resize` forces `array[size - 1] = '\0'`: the old string truncated to
`size - 1` characters (`realloc` preserves the common prefix).  A fresh
buffer (`array == NULL`, i.e. a plain `malloc`) holds uninitialized bytes;
it is modelled as empty — every caller overwrites it via `copy_pair` before
it can be observed, or frees it. -/
def reallocContent (array : Option (List Char)) (size : Nat) : List Char :=
  match array with
  | some s => s.take (size - 1)
  | none => []

/-- `resize` (`part_001`):

```
static char *resize(char *array, size_t size) {
  size += 1;
  if (array == NULL || strlen(array) <= size) {
    array = memory_realloc(array, size);
    if (array) array[size - 1] = '\0';
  }
  return array;
}
```

Consumes one allocation oracle entry exactly when `realloc` is called; on
failure the function returns `NULL` (the old buffer is lost). -/
def resizeD (array : Option (List Char)) (size : Nat) (alloc : Nat → Bool) (ctr : Nat) :
    Option (List Char) × Nat :=
  let size := size + 1
  if array = none ∨ strlenD array ≤ size then
    if alloc ctr then (some (reallocContent array size), ctr + 1)
    else (none, ctr + 1)
  else (array, ctr)

/-- `copy_pair` (dynamic): refuses `NULL` destinations, otherwise `strncpy`s
the full source strings (the destinations were sized by `resize` to fit).
Returns the destination contents after the call and the success flag. -/
def copy_pairD (dstKey dstVal : Option (List Char)) (srcKey srcVal : List Char) :
    (Option (List Char) × Option (List Char)) × Bool :=
  match dstKey, dstVal with
  | some _, some _ => ((some srcKey, some srcVal), true)
  | _, _ => ((dstKey, dstVal), false)

/-- `create_pair` (dynamic): `malloc` the pair (one oracle entry), `resize`
fresh key and value buffers, fill them with `copy_pair`; on any failure the
partially built pair is freed and `NULL` is returned. -/
def create_pairD (key value : List Char) (alloc : Nat → Bool) (ctr : Nat) :
    Option PairD × Nat :=
  if alloc ctr then
    let rk := resizeD none key.length alloc (ctr + 1)
    let rv := resizeD none value.length alloc rk.2
    match rk.1, rv.1 with
    | some _, some _ => (some ⟨some key, some value⟩, rv.2)
    | _, _ => (none, rv.2)
  else (none, ctr + 1)

/-- `keys_match` (dynamic): both non-null and `strcmp(key1, key2) == 0`. -/
def keys_matchD (k1 k2 : Option (List Char)) : Bool :=
  match k1, k2 with
  | some a, some b => a == b
  | _, _ => false

/-- The linear walk of `find_pair` (dynamic). -/
def findPairListD : List PairD → Option (List Char) → Option PairD
  | [], _ => none
  | p :: rest, k => if keys_matchD p.key k then some p else findPairListD rest k

/-- The replace branch of the dynamic `settings_set_string`
(`part_001:842-875`):

```
pair->key = resize(pair->key, strlen(key));
pair->value = resize(pair->value, strlen(value));
result = copy_pair(pair->key, pair->value, key, value);
```

Both `resize` results are stored back into the pair unconditionally, so a
failed `realloc` replaces the old buffer with `NULL`. -/
def replacePairD (p : PairD) (key value : List Char) (alloc : Nat → Bool) (ctr : Nat) :
    PairD × Bool × Nat :=
  let rk := resizeD p.key key.length alloc ctr
  let rv := resizeD p.value value.length alloc rk.2
  let c := copy_pairD rk.1 rv.1 key value
  (⟨c.1.1, c.1.2⟩, c.2, rv.2)

/-- `find_pair` followed by the in-place replacement, as a walk over the pair
list; `none` when no pair matches. -/
def setInListD : List PairD → List Char → List Char → (Nat → Bool) → Nat →
    Option (List PairD × Bool × Nat)
  | [], _, _, _, _ => none
  | p :: rest, k, v, alloc, ctr =>
    if keys_matchD p.key (some k) then
      let r := replacePairD p k v alloc ctr
      some (r.1 :: rest, r.2.1, r.2.2)
    else
      match setInListD rest k v alloc ctr with
      | some r => some (p :: r.1, r.2.1, r.2.2)
      | none => none

/-- `settings_set_string` (dynamic, `part_001:842`): null checks, then replace
in place or `create_pair` and append at `last`. -/
def settings_set_stringD (st : Option StoreD) (key value : Option (List Char))
    (alloc : Nat → Bool) (ctr : Nat) : Option StoreD × Bool × Nat :=
  match st, key, value with
  | some s, some k, some v =>
    match setInListD s k v alloc ctr with
    | some r => (some r.1, r.2.1, r.2.2)
    | none =>
      let c := create_pairD k v alloc ctr
      match c.1 with
      | some p => (some (s ++ [p]), true, c.2)
      | none => (some s, false, c.2)
  | _, _, _ => (st, false, ctr)

/-- `settings_get_string` (dynamic): the found pair's `value` pointer is
returned as-is — it is `NULL` for a pair corrupted by a failed `resize`. -/
def settings_get_stringD (st : Option StoreD) (key defaultValue : Option (List Char)) :
    Option (List Char) :=
  match st with
  | some s =>
    match findPairListD s key with
    | some p => p.value
    | none => defaultValue
  | none => defaultValue

/-- `settings_get_int` (dynamic): `atoi(pair->value)`; `atoi` of a `NULL`
value is undefined behavior, modelled `none`. -/
def settings_get_intD (st : Option StoreD) (key : Option (List Char)) (defaultValue : Int) :
    Option Int :=
  match st with
  | some s =>
    match findPairListD s key with
    | some p =>
      match p.value with
      | some v => some (atoi v)
      | none => none
    | none => some defaultValue
  | none => some defaultValue

/-- `INT_DIGITS` (`part_001:533-539`):

```
#define STRINGIFY(x) #x
#define NUM_DIGITS(x) (sizeof(STRINGIFY(x)) - 1)
#define INT_DIGITS (NUM_DIGITS(INT_MAX) + 1)
```

`#x` stringifies its argument **without macro expansion**, so
`STRINGIFY(INT_MAX)` is the 7-character literal `"INT_MAX"`, not the digits
of `2147483647`; hence `INT_DIGITS = 7 + 1 = 8`. -/
def INT_DIGITS : Nat := String.length "INT_MAX" + 1

/-- `settings_set_int` (dynamic, `part_001:877-884`): `snprintf(value_str,
INT_DIGITS, "%d", value)` keeps at most `INT_DIGITS - 1` characters of the
decimal text, then delegates to `settings_set_string`. -/
def settings_set_intD (st : Option StoreD) (key : Option (List Char)) (v : Int)
    (alloc : Nat → Bool) (ctr : Nat) : Option StoreD × Bool × Nat :=
  settings_set_stringD st key (some ((intRepr v).take (INT_DIGITS - 1))) alloc ctr

/-! ## Derived run / specification-side definitions -/

/-- A single `settings_set_string` call on a non-null bounded store: the store
after the call, the success flag and the advanced allocation counter (the
non-null-store projection of `settings_set_stringB`, see
`settings_set_stringB_eq_stepB`). -/
def stepB (st : StoreB) (key value : Option (List Char)) (alloc : Nat → Bool) (ctr : Nat) :
    StoreB × Bool × Nat :=
  match key, value with
  | some k, some v => setStringCoreB st k v alloc ctr
  | _, _ => (st, false, ctr)

/-- Run a sequence of `settings_set_string` calls against a bounded store. -/
def runOpsB : List (Option (List Char) × Option (List Char)) → (Nat → Bool) →
    StoreB → Nat → StoreB × Nat
  | [], _, st, ctr => (st, ctr)
  | op :: rest, alloc, st, ctr =>
    let r := stepB st op.1 op.2 alloc ctr
    runOpsB rest alloc r.1 r.2.2

/-- Keys of a bounded store, in list order. -/
def keysB (st : StoreB) : List (List Char) :=
  st.map PairB.key

/-- Follows the spec's words: "the value passed to the most recent successful
`set_string` for that key".  Replays the call sequence and records, for the
key `k`, the value argument of the last call that both succeeded and carried
`k` as its key; `none` when no such call exists. -/
def lastSuccessfulSet : List (Option (List Char) × Option (List Char)) → (Nat → Bool) →
    StoreB → Nat → List Char → Option (List Char)
  | [], _, _, _, _ => none
  | op :: rest, alloc, st, ctr, k =>
    let r := stepB st op.1 op.2 alloc ctr
    match lastSuccessfulSet rest alloc r.1 r.2.2 k with
    | some v => some v
    | none => if r.2.1 = true ∧ op.1 = some k then op.2 else none

/-! ## Supporting lemmas -/

theorem settings_set_stringB_eq_stepB (st : StoreB) (key value : Option (List Char))
    (alloc : Nat → Bool) (ctr : Nat) :
    settings_set_stringB (some st) key value alloc ctr =
      (some (stepB st key value alloc ctr).1, (stepB st key value alloc ctr).2.1,
        (stepB st key value alloc ctr).2.2) := by
  cases key <;> cases value <;> rfl

theorem takeWhile_sep (l r : List Char) (h : ∀ c ∈ l, c ≠ '=') :
    (l ++ '=' :: r).takeWhile (fun c => c != '=') = l := by
  induction l with
  | nil => simp [List.takeWhile]
  | cons c t ih =>
    have hc : c ≠ '=' := h c (by simp)
    simp only [List.cons_append, List.takeWhile_cons]
    have : (c != '=') = true := by simpa using hc
    rw [this]
    simp only [if_true]
    rw [ih (fun x hx => h x (by simp [hx]))]

theorem dropWhile_sep (l r : List Char) (h : ∀ c ∈ l, c ≠ '=') :
    (l ++ '=' :: r).dropWhile (fun c => c != '=') = '=' :: r := by
  induction l with
  | nil => simp [List.dropWhile]
  | cons c t ih =>
    have hc : c ≠ '=' := h c (by simp)
    simp only [List.cons_append, List.dropWhile_cons]
    have : (c != '=') = true := by simpa using hc
    rw [this]
    simp only [if_true]
    exact ih (fun x hx => h x (by simp [hx]))

theorem dropWhile_of_takeWhile_nil {p : Char → Bool} {l : List Char}
    (h : l.takeWhile p = []) : l.dropWhile p = l := by
  conv_rhs => rw [← List.takeWhile_append_dropWhile p l]
  rw [h]; rfl

/-- `trim` is the identity on a nonempty string with no leading and no
trailing whitespace. -/
theorem trim_of_noEdge {k : List Char} (hne : k ≠ [])
    (h1 : k.takeWhile isspace = []) (h2 : k.reverse.takeWhile isspace = []) :
    trim k = some k := by
  unfold trim
  rw [if_neg (by simpa using hne)]
  rw [dropWhile_of_takeWhile_nil h1]
  unfold dropTrailing
  rw [dropWhile_of_takeWhile_nil h2, List.reverse_reverse]

/-- `trim` of a single leading space followed by a string with no edge
whitespace drops exactly that space. -/
theorem trim_space_cons {v : List Char}
    (h1 : v.takeWhile isspace = []) (h2 : v.reverse.takeWhile isspace = []) :
    trim (' ' :: v) = some v := by
  unfold trim
  rw [if_neg (by simp)]
  have hsp : isspace ' ' = true := by decide
  rw [List.dropWhile_cons]
  rw [hsp]
  simp only [if_true]
  rw [dropWhile_of_takeWhile_nil h1]
  unfold dropTrailing
  rw [dropWhile_of_takeWhile_nil h2, List.reverse_reverse]

/-- With a stored key shorter than the buffer, `keys_match` is plain string
equality. -/
theorem keys_matchB_true_iff {a : List Char} (b : List Char)
    (ha : a.length < CONFIG_KEY_LENGTH) :
    keys_matchB (some a) (some b) = true ↔ a = b := by
  unfold keys_matchB strncmpEq
  rw [beq_iff_eq]
  rw [List.take_of_length_le (Nat.le_of_lt ha)]
  constructor
  · intro h
    have hlen : (b.take CONFIG_KEY_LENGTH).length < CONFIG_KEY_LENGTH := h ▸ ha
    rw [List.length_take] at hlen
    have : b.length < CONFIG_KEY_LENGTH := by omega
    rw [List.take_of_length_le (Nat.le_of_lt this)] at h
    exact h
  · intro h
    subst h
    rw [List.take_of_length_le (Nat.le_of_lt ha)]

theorem keys_matchB_eq_some {a : List Char} {kq : Option (List Char)}
    (ha : a.length < CONFIG_KEY_LENGTH) (h : keys_matchB (some a) kq = true) :
    kq = some a := by
  match kq with
  | none => simp [keys_matchB] at h
  | some b =>
    rw [keys_matchB_true_iff b ha] at h
    rw [h]

theorem findPairListB_append (l l' : List PairB) (k : Option (List Char)) :
    findPairListB (l ++ l') k =
      match findPairListB l k with
      | some p => some p
      | none => findPairListB l' k := by
  induction l with
  | nil => simp [findPairListB]
  | cons p rest ih =>
    simp only [List.cons_append, findPairListB]
    by_cases h : keys_matchB (some p.key) k = true
    · rw [if_pos h, if_pos h]
    · rw [if_neg h, if_neg h]
      exact ih

theorem copy_pairB_eq {k v : List Char} (hk : k.length < CONFIG_KEY_LENGTH)
    (hv : v.length < CONFIG_VALUE_LENGTH) : copy_pairB k v = ⟨k, v⟩ := by
  have hK : CONFIG_KEY_LENGTH = 128 := rfl
  have hV : CONFIG_VALUE_LENGTH = 128 := rfl
  unfold copy_pairB
  rw [List.take_of_length_le (by omega), List.take_of_length_le (by omega)]

theorem findPairListB_eq_none {st : List PairB} {k : List Char}
    (hst : ∀ p ∈ st, p.key.length < CONFIG_KEY_LENGTH)
    (hmem : ∀ p ∈ st, p.key ≠ k) :
    findPairListB st (some k) = none := by
  induction st with
  | nil => rfl
  | cons p rest ih =>
    have hne : keys_matchB (some p.key) (some k) ≠ true := fun hc =>
      hmem p (by simp) ((keys_matchB_true_iff k (hst p (by simp))).1 hc)
    simp only [findPairListB]
    rw [if_neg hne]
    exact ih (fun q hq => hst q (by simp [hq])) (fun q hq => hmem q (by simp [hq]))

theorem setInListB_eq_none {st : List PairB} {k v : List Char}
    (hst : ∀ p ∈ st, p.key.length < CONFIG_KEY_LENGTH) :
    setInListB st k v = none ↔ ∀ p ∈ st, p.key ≠ k := by
  induction st with
  | nil => simp [setInListB]
  | cons p rest ih =>
    have hiff := keys_matchB_true_iff k (hst p (by simp))
    have ih' := ih (fun q hq => hst q (by simp [hq]))
    simp only [setInListB]
    by_cases h : keys_matchB (some p.key) (some k) = true
    · rw [if_pos h]
      rw [hiff] at h
      simp [h]
    · rw [if_neg h]
      rw [hiff] at h
      constructor
      · intro hnone q hq
        rcases List.mem_cons.1 hq with rfl | hq'
        · exact h
        · match heq : setInListB rest k v with
          | some rest' => rw [heq] at hnone; exact absurd hnone (by simp)
          | none => exact (ih'.1 heq) q hq'
      · intro hall
        have : setInListB rest k v = none := ih'.2 (fun q hq => hall q (by simp [hq]))
        rw [this]

theorem setInListB_some_spec {st st' : List PairB} {k v : List Char}
    (hst : ∀ p ∈ st, p.key.length < CONFIG_KEY_LENGTH)
    (hk : k.length < CONFIG_KEY_LENGTH) (hv : v.length < CONFIG_VALUE_LENGTH)
    (h : setInListB st k v = some st') :
    keysB st' = keysB st ∧
    findPairListB st' (some k) = some ⟨k, v⟩ ∧
    (∀ kq : Option (List Char), kq ≠ some k → findPairListB st' kq = findPairListB st kq) := by
  induction st generalizing st' with
  | nil => exact absurd h (by simp [setInListB])
  | cons p rest ih =>
    have hplen := hst p (by simp)
    simp only [setInListB] at h
    by_cases hm : keys_matchB (some p.key) (some k) = true
    · rw [if_pos hm] at h
      have hpk : p.key = k := (keys_matchB_true_iff k hplen).1 hm
      have hcp := copy_pairB_eq hk hv
      rw [hcp] at h
      have hst' : st' = ⟨k, v⟩ :: rest := (Option.some.inj h).symm
      subst hst'
      refine ⟨by simp [keysB, hpk], ?_, ?_⟩
      · simp only [findPairListB]
        rw [if_pos ((keys_matchB_true_iff k hk).2 rfl)]
      · intro kq hkq
        simp only [findPairListB]
        have h1 : keys_matchB (some k) kq ≠ true := fun hc => hkq (keys_matchB_eq_some hk hc)
        have h2 : keys_matchB (some p.key) kq ≠ true := by rw [hpk]; exact h1
        rw [if_neg h1, if_neg h2]
    · rw [if_neg hm] at h
      match heq : setInListB rest k v with
      | none => rw [heq] at h; exact absurd h (by simp)
      | some rest' =>
        rw [heq] at h
        have hst'' : st' = p :: rest' := (Option.some.inj h).symm
        subst hst''
        obtain ⟨ihk, ihf, ihq⟩ := ih (fun q hq => hst q (by simp [hq])) heq
        refine ⟨by simp [keysB, keysB] at ihk ⊢; exact ihk, ?_, ?_⟩
        · simp only [findPairListB]
          rw [if_neg hm, ihf]
        · intro kq hkq
          simp only [findPairListB]
          by_cases hh : keys_matchB (some p.key) kq = true
          · rw [if_pos hh, if_pos hh]
          · rw [if_neg hh, if_neg hh]
            exact ihq kq hkq

/-- The length check of `setStringCoreB` passes for short keys and values. -/
theorem setStringCoreB_passes {st : StoreB} {k v : List Char}
    (hk : k.length < CONFIG_KEY_LENGTH) (hv : v.length < CONFIG_VALUE_LENGTH)
    (alloc : Nat → Bool) (ctr : Nat) :
    setStringCoreB st k v alloc ctr = setStringBodyB st k v alloc ctr := by
  unfold setStringCoreB
  rw [if_neg (by omega)]

/-- `settings_set_string` on a key not in the store: append on allocation
success, no mutation on failure. -/
theorem setCoreB_not_mem {st : StoreB} {k v : List Char}
    (hst : ∀ p ∈ st, p.key.length < CONFIG_KEY_LENGTH)
    (hk : k.length < CONFIG_KEY_LENGTH) (hv : v.length < CONFIG_VALUE_LENGTH)
    (hmem : ∀ p ∈ st, p.key ≠ k) (alloc : Nat → Bool) (ctr : Nat) :
    setStringCoreB st k v alloc ctr =
      if alloc ctr then (st ++ [⟨k, v⟩], true, ctr + 1) else (st, false, ctr + 1) := by
  rw [setStringCoreB_passes hk hv]
  unfold setStringBodyB
  rw [(setInListB_eq_none hst).2 hmem, copy_pairB_eq hk hv]

/-- `settings_set_string` on a key already in the store: replace in place,
no allocation. -/
theorem setCoreB_mem {st : StoreB} {k v : List Char}
    (hst : ∀ p ∈ st, p.key.length < CONFIG_KEY_LENGTH)
    (hk : k.length < CONFIG_KEY_LENGTH) (hv : v.length < CONFIG_VALUE_LENGTH)
    (hmem : ∃ p ∈ st, p.key = k) (alloc : Nat → Bool) (ctr : Nat) :
    ∃ st', setStringCoreB st k v alloc ctr = (st', true, ctr) ∧
      keysB st' = keysB st ∧
      findPairListB st' (some k) = some ⟨k, v⟩ ∧
      (∀ kq : Option (List Char), kq ≠ some k → findPairListB st' kq = findPairListB st kq) := by
  rw [setStringCoreB_passes hk hv]
  unfold setStringBodyB
  match heq : setInListB st k v with
  | none =>
    obtain ⟨p, hp, hpk⟩ := hmem
    exact absurd hpk ((setInListB_eq_none hst).1 heq p hp)
  | some st' =>
    obtain ⟨h1, h2, h3⟩ := setInListB_some_spec hst hk hv heq
    exact ⟨st', rfl, h1, h2, h3⟩

/-- Behavior of one `settings_set_string` call on a well-formed store: the
store invariants are preserved, and a lookup afterwards sees the new value
exactly when the call succeeded for that key, the old answer otherwise. -/
theorem stepB_spec (st : StoreB) (key value : Option (List Char))
    (alloc : Nat → Bool) (ctr : Nat)
    (hst : ∀ p ∈ st, p.key.length < CONFIG_KEY_LENGTH) (hnd : (keysB st).Nodup) :
    (∀ p ∈ (stepB st key value alloc ctr).1, p.key.length < CONFIG_KEY_LENGTH) ∧
    (keysB (stepB st key value alloc ctr).1).Nodup ∧
    ∀ (k : List Char) (d : Option (List Char)),
      settings_get_stringB (some (stepB st key value alloc ctr).1) (some k) d =
        match (if (stepB st key value alloc ctr).2.1 = true ∧ key = some k
               then value else none) with
        | some v => some v
        | none => settings_get_stringB (some st) (some k) d := by
  match key, value with
  | none, _ =>
    refine ⟨hst, hnd, fun k d => ?_⟩
    simp [stepB]
  | some k₀, none =>
    refine ⟨hst, hnd, fun k d => ?_⟩
    simp [stepB]
  | some k₀, some v₀ =>
    simp only [stepB]
    by_cases hlen : CONFIG_KEY_LENGTH ≤ k₀.length ∨ CONFIG_VALUE_LENGTH ≤ v₀.length
    · have hcore : setStringCoreB st k₀ v₀ alloc ctr = (st, false, ctr) := by
        unfold setStringCoreB
        rw [if_pos hlen]
      simp only [hcore]
      refine ⟨hst, hnd, fun k d => ?_⟩
      simp
    · push_neg at hlen
      have hk : k₀.length < CONFIG_KEY_LENGTH := hlen.1
      have hv : v₀.length < CONFIG_VALUE_LENGTH := hlen.2
      by_cases hmem : ∃ p ∈ st, p.key = k₀
      · obtain ⟨st', hcore, hkeys, hfind, hpres⟩ := setCoreB_mem hst hk hv hmem alloc ctr
        simp only [hcore]
        have hst' : ∀ p ∈ st', p.key.length < CONFIG_KEY_LENGTH := by
          intro p hp
          have hmem' : p.key ∈ keysB st := by
            rw [← hkeys]
            exact List.mem_map_of_mem PairB.key hp
          obtain ⟨q, hq, hqk⟩ := List.mem_map.1 hmem'
          rw [← hqk]
          exact hst q hq
        refine ⟨hst', by rw [show keysB st' = keysB st from hkeys]; exact hnd, fun k d => ?_⟩
        by_cases hkk : k₀ = k
        · subst hkk
          rw [if_pos (And.intro (by trivial) rfl)]
          simp [settings_get_stringB, find_pairB, hfind]
        · rw [if_neg (fun hc => hkk (Option.some.inj hc.2))]
          have hp := hpres (some k) (by simp; exact fun h => hkk h.symm)
          simp [settings_get_stringB, find_pairB, hp]
      · push_neg at hmem
        have hcore := setCoreB_not_mem hst hk hv hmem alloc ctr
        by_cases hal : alloc ctr = true
        · rw [if_pos hal] at hcore
          simp only [hcore]
          have hnotin : k₀ ∉ keysB st := by
            intro hin
            obtain ⟨q, hq, hqk⟩ := List.mem_map.1 hin
            exact hmem q hq hqk
          refine ⟨?_, ?_, ?_⟩
          · intro p hp
            rcases List.mem_append.1 hp with hp' | hp'
            · exact hst p hp'
            · rw [List.mem_singleton.1 hp']
              exact hk
          · show (keysB (st ++ [⟨k₀, v₀⟩])).Nodup
            have hkapp : keysB (st ++ [⟨k₀, v₀⟩]) = keysB st ++ [k₀] := by
              simp [keysB]
            rw [hkapp, List.nodup_append]
            refine ⟨hnd, List.nodup_singleton k₀, ?_⟩
            intro a ha hb
            rw [List.mem_singleton.1 hb] at ha
            exact hnotin ha
          · intro k d
            by_cases hkk : k₀ = k
            · subst hkk
              rw [if_pos (And.intro (by trivial) rfl)]
              have hnone := findPairListB_eq_none hst hmem
              simp [settings_get_stringB, find_pairB, findPairListB_append, hnone,
                findPairListB, (keys_matchB_true_iff k₀ hk).2 rfl]
            · rw [if_neg (fun hc => hkk (Option.some.inj hc.2))]
              have hne : keys_matchB (some k₀) (some k) ≠ true := fun hc =>
                hkk (Option.some.inj (keys_matchB_eq_some hk hc)).symm
              cases hfq : findPairListB st (some k) with
              | some p =>
                simp [settings_get_stringB, find_pairB, findPairListB_append, hfq]
              | none =>
                simp [settings_get_stringB, find_pairB, findPairListB_append, hfq,
                  findPairListB, hne]
        · rw [if_neg hal] at hcore
          simp only [hcore]
          refine ⟨hst, hnd, fun k d => ?_⟩
          simp

/-- Running a sequence of `settings_set_string` calls preserves the store
invariants, and afterwards each key reads back as the value of its most
recent successful set, falling back to what the starting store answered. -/
theorem runOpsB_spec (ops : List (Option (List Char) × Option (List Char)))
    (alloc : Nat → Bool) :
    ∀ (st : StoreB) (ctr : Nat),
      (∀ p ∈ st, p.key.length < CONFIG_KEY_LENGTH) → (keysB st).Nodup →
      (∀ p ∈ (runOpsB ops alloc st ctr).1, p.key.length < CONFIG_KEY_LENGTH) ∧
      (keysB (runOpsB ops alloc st ctr).1).Nodup ∧
      ∀ (k : List Char) (d : Option (List Char)),
        settings_get_stringB (some (runOpsB ops alloc st ctr).1) (some k) d =
          match lastSuccessfulSet ops alloc st ctr k with
          | some v => some v
          | none => settings_get_stringB (some st) (some k) d := by
  induction ops with
  | nil =>
    intro st ctr hst hnd
    exact ⟨hst, hnd, fun k d => rfl⟩
  | cons op rest ih =>
    intro st ctr hst hnd
    obtain ⟨h1, h2, h3⟩ := stepB_spec st op.1 op.2 alloc ctr hst hnd
    obtain ⟨ih1, ih2, ih3⟩ :=
      ih (stepB st op.1 op.2 alloc ctr).1 (stepB st op.1 op.2 alloc ctr).2.2 h1 h2
    refine ⟨ih1, ih2, fun k d => ?_⟩
    show settings_get_stringB
        (some (runOpsB rest alloc (stepB st op.1 op.2 alloc ctr).1
          (stepB st op.1 op.2 alloc ctr).2.2).1) (some k) d = _
    rw [ih3 k d]
    show _ = match
        (match lastSuccessfulSet rest alloc (stepB st op.1 op.2 alloc ctr).1
            (stepB st op.1 op.2 alloc ctr).2.2 k with
         | some v => some v
         | none => if (stepB st op.1 op.2 alloc ctr).2.1 = true ∧ op.1 = some k
                   then op.2 else none) with
      | some v => some v
      | none => settings_get_stringB (some st) (some k) d
    match lastSuccessfulSet rest alloc (stepB st op.1 op.2 alloc ctr).1
        (stepB st op.1 op.2 alloc ctr).2.2 k with
    | some v => rfl
    | none => exact h3 k d

theorem fgetsTake_line (l : List Char) : ∀ (n : Nat) (rest : List Char), '\n' ∉ l →
    l.length < n → fgetsTake n (l ++ '\n' :: rest) = (l ++ ['\n'], rest) := by
  induction l with
  | nil =>
    intro n rest _ hn
    match n, hn with
    | m + 1, _ => simp [fgetsTake]
  | cons c t ih =>
    intro n rest hnl hn
    have hc : c ≠ '\n' := fun hc => hnl (by simp [hc])
    match n with
    | m + 1 =>
      show fgetsTake (m + 1) (c :: (t ++ '\n' :: rest)) = _
      unfold fgetsTake
      rw [if_neg hc]
      rw [ih m rest (fun hm => hnl (by simp [hm])) (by simpa using hn)]
      rfl

theorem fgetsTake_shrinks (c : List Char) : ∀ (n : Nat), c ≠ [] →
    (fgetsTake (n + 1) c).2.length < c.length := by
  induction c with
  | nil => intro n h; exact absurd rfl h
  | cons x rest ih =>
    intro n _
    by_cases hx : x = '\n'
    · show (fgetsTake (n + 1) (x :: rest)).2.length < rest.length + 1
      unfold fgetsTake
      rw [if_pos hx]
      show rest.length < rest.length + 1
      omega
    · show (fgetsTake (n + 1) (x :: rest)).2.length < rest.length + 1
      unfold fgetsTake
      rw [if_neg hx]
      show (fgetsTake n rest).2.length < rest.length + 1
      match rest, n with
      | [], n =>
        show (fgetsTake n []).2.length < 1
        cases n <;> simp [fgetsTake]
      | y :: t, 0 =>
        show (y :: t).length < (y :: t).length + 1
        omega
      | y :: t, m + 1 =>
        have h := ih m (by simp)
        omega

theorem readLinesAux_nil (fuel : Nat) : readLinesAux fuel [] = [] := by
  cases fuel <;> rfl

theorem readLinesAux_mono (fuel₁ : Nat) : ∀ (fuel₂ : Nat) (c : List Char),
    c.length ≤ fuel₁ → c.length ≤ fuel₂ → readLinesAux fuel₁ c = readLinesAux fuel₂ c := by
  induction fuel₁ with
  | zero =>
    intro fuel₂ c h1 _
    have hnil : c = [] := List.eq_nil_of_length_eq_zero (Nat.le_zero.1 h1)
    rw [hnil, readLinesAux_nil, readLinesAux_nil]
  | succ f ih =>
    intro fuel₂ c h1 h2
    match c with
    | [] => rw [readLinesAux_nil, readLinesAux_nil]
    | x :: rest =>
      match fuel₂ with
      | g + 1 =>
        have hshr : (fgetsTake (CONFIG_LINE_LENGTH - 1) (x :: rest)).2.length <
            (x :: rest).length := by
          have h1023 : CONFIG_LINE_LENGTH - 1 = 1022 + 1 := rfl
          rw [h1023]
          exact fgetsTake_shrinks (x :: rest) 1022 (by simp)
        have hlen : (x :: rest).length = rest.length + 1 := by simp
        show (fgetsTake (CONFIG_LINE_LENGTH - 1) (x :: rest)).1 ::
            readLinesAux f (fgetsTake (CONFIG_LINE_LENGTH - 1) (x :: rest)).2 =
          (fgetsTake (CONFIG_LINE_LENGTH - 1) (x :: rest)).1 ::
            readLinesAux g (fgetsTake (CONFIG_LINE_LENGTH - 1) (x :: rest)).2
        rw [ih g (fgetsTake (CONFIG_LINE_LENGTH - 1) (x :: rest)).2 (by omega) (by omega)]

theorem readLinesAux_split (fuel : Nat) (l rest : List Char) (hnl : '\n' ∉ l)
    (hlen : l.length < CONFIG_LINE_LENGTH - 1) :
    readLinesAux (fuel + 1) (l ++ '\n' :: rest) = (l ++ ['\n']) :: readLinesAux fuel rest := by
  have hfg : fgetsTake (CONFIG_LINE_LENGTH - 1) (l ++ '\n' :: rest) = (l ++ ['\n'], rest) :=
    fgetsTake_line l (CONFIG_LINE_LENGTH - 1) rest hnl hlen
  cases hc : l ++ '\n' :: rest with
  | nil => exact absurd hc (by simp)
  | cons x xs =>
    show (fgetsTake (CONFIG_LINE_LENGTH - 1) (x :: xs)).1 ::
        readLinesAux fuel (fgetsTake (CONFIG_LINE_LENGTH - 1) (x :: xs)).2 =
      (l ++ ['\n']) :: readLinesAux fuel rest
    rw [← hc, hfg]

theorem readLines_cons (l rest : List Char) (hnl : '\n' ∉ l)
    (hlen : l.length < CONFIG_LINE_LENGTH - 1) :
    readLines (l ++ '\n' :: rest) = (l ++ ['\n']) :: readLines rest := by
  unfold readLines
  have hN : (l ++ '\n' :: rest).length = (rest.length + l.length) + 1 := by
    simp
    omega
  rw [readLinesAux_mono (l ++ '\n' :: rest).length ((rest.length + l.length) + 1)
    (l ++ '\n' :: rest) (le_refl _) (by rw [hN])]
  rw [readLinesAux_split (rest.length + l.length) l rest hnl hlen]
  rw [readLinesAux_mono (rest.length + l.length) rest.length rest
    (by omega) (le_refl _)]

/-- The well-formedness the round-trip claim needs of one stored pair: key
and value fit the bounded buffers, contain no `=` and no newline, carry no
leading or trailing ASCII whitespace, and the key is nonempty. -/
def WFpairB (p : PairB) : Prop :=
  p.key ≠ [] ∧ p.key.length < CONFIG_KEY_LENGTH ∧ '=' ∉ p.key ∧ '\n' ∉ p.key ∧
  p.key.takeWhile isspace = [] ∧ p.key.reverse.takeWhile isspace = [] ∧
  p.value.length < CONFIG_VALUE_LENGTH ∧ '=' ∉ p.value ∧ '\n' ∉ p.value ∧
  p.value.takeWhile isspace = [] ∧ p.value.reverse.takeWhile isspace = []

instance (p : PairB) : Decidable (WFpairB p) := by
  unfold WFpairB
  infer_instance

/-- Parsing a line that `settings_save` wrote recovers exactly the saved key
and value: the separator space absorbs the dropped last character of the key
part, the newline is the dropped last character of the value part, and
trimming removes only the separator spaces. -/
theorem dropLast_append_singleton (l : List Char) (a : Char) : (l ++ [a]).dropLast = l := by
  simp

theorem splitLineB_saved (key value : List Char) (hkeq : '=' ∉ key) (hkne : key ≠ [])
    (hkl : key.takeWhile isspace = []) (hkr : key.reverse.takeWhile isspace = [])
    (hvl : value.takeWhile isspace = []) (hvr : value.reverse.takeWhile isspace = []) :
    splitLineB (lineCore ⟨key, value⟩ ++ ['\n']) = some (some (key, value)) := by
  have hfree : ∀ c ∈ key ++ [' '], c ≠ '=' := by
    intro c hc
    rcases List.mem_append.1 hc with h | h
    · exact fun he => hkeq (he ▸ h)
    · rw [List.mem_singleton.1 h]
      decide
  have hform : lineCore ⟨key, value⟩ ++ ['\n'] =
      (key ++ [' ']) ++ '=' :: (' ' :: (value ++ ['\n'])) := by
    simp [lineCore]
  have htw := takeWhile_sep (key ++ [' ']) (' ' :: (value ++ ['\n'])) hfree
  have hdw := dropWhile_sep (key ++ [' ']) (' ' :: (value ++ ['\n'])) hfree
  have hdl1 : (key ++ [' ']).dropLast = key := dropLast_append_singleton key ' '
  have hdl2 : (' ' :: (value ++ ['\n'])).dropLast = ' ' :: value :=
    dropLast_append_singleton (' ' :: value) '\n'
  rw [hform]
  simp only [splitLineB, htw, hdw, hdl1, hdl2, trim_of_noEdge hkne hkl hkr,
    trim_space_cons hvl hvr]
  simp

/-- Loading the bytes `settings_save` wrote for `st` into a store `acc` whose
keys are disjoint from `st`'s appends exactly `st`'s pairs, consuming one
allocation per pair. -/
theorem loadLinesB_saved (st : StoreB) : ∀ (acc : StoreB) (ctr : Nat),
    (∀ p ∈ st, WFpairB p) → (keysB st).Nodup →
    (∀ p ∈ acc, p.key.length < CONFIG_KEY_LENGTH) →
    (∀ p ∈ st, p.key ∉ keysB acc) →
    loadLinesB (readLines (saveContentB st)) acc (fun _ => true) ctr =
      some (acc ++ st, ctr + st.length) := by
  induction st with
  | nil =>
    intro acc ctr _ _ _ _
    show loadLinesB (readLines []) acc (fun _ => true) ctr = some (acc ++ [], ctr + 0)
    simp [readLines, readLinesAux, loadLinesB]
  | cons p rest ih =>
    intro acc ctr hwf hnd hacc hdisj
    obtain ⟨hkne, hklen, hkeq, hknl, hkl, hkr, hvlen, hveq, hvnl, hvl, hvr⟩ :=
      hwf p (by simp)
    have hline : '\n' ∉ lineCore p := by
      intro hm
      unfold lineCore at hm
      rcases List.mem_append.1 hm with h | h
      · exact hknl h
      · rcases List.mem_cons.1 h with h | h
        · exact absurd h (by decide)
        · rcases List.mem_cons.1 h with h | h
          · exact absurd h (by decide)
          · rcases List.mem_cons.1 h with h | h
            · exact absurd h (by decide)
            · exact hvnl h
    have hlen : (lineCore p).length < CONFIG_LINE_LENGTH - 1 := by
      have hK : CONFIG_KEY_LENGTH = 128 := rfl
      have hV : CONFIG_VALUE_LENGTH = 128 := rfl
      have hL : CONFIG_LINE_LENGTH = 1024 := rfl
      have : (lineCore p).length = p.key.length + 3 + p.value.length := by
        simp [lineCore]
        omega
      omega
    show loadLinesB (readLines (lineCore p ++ '\n' :: saveContentB rest)) acc
        (fun _ => true) ctr = _
    rw [readLines_cons (lineCore p) (saveContentB rest) hline hlen]
    have hsplit := splitLineB_saved p.key p.value hkeq hkne hkl hkr hvl hvr
    show (match splitLineB (lineCore p ++ ['\n']) with
          | none => none
          | some none => loadLinesB (readLines (saveContentB rest)) acc (fun _ => true) ctr
          | some (some (k, v)) =>
            loadLinesB (readLines (saveContentB rest))
              (setStringCoreB acc k v (fun _ => true) ctr).1 (fun _ => true)
              (setStringCoreB acc k v (fun _ => true) ctr).2.2) = _
    rw [hsplit]
    show loadLinesB (readLines (saveContentB rest))
        (setStringCoreB acc p.key p.value (fun _ => true) ctr).1 (fun _ => true)
        (setStringCoreB acc p.key p.value (fun _ => true) ctr).2.2 = _
    have hnotmem : ∀ q ∈ acc, q.key ≠ p.key := by
      intro q hq he
      exact hdisj p (by simp) (he ▸ List.mem_map_of_mem PairB.key hq)
    have hcore := setCoreB_not_mem hacc hklen hvlen hnotmem (fun _ => true) ctr
    rw [if_pos rfl] at hcore
    simp only [hcore]
    have hndrest : (keysB rest).Nodup := by
      have : keysB (p :: rest) = p.key :: keysB rest := rfl
      rw [this] at hnd
      exact hnd.of_cons
    have hpnotrest : p.key ∉ keysB rest := by
      have : keysB (p :: rest) = p.key :: keysB rest := rfl
      rw [this] at hnd
      exact (List.nodup_cons.1 hnd).1
    have hih := ih (acc ++ [⟨p.key, p.value⟩]) (ctr + 1)
      (fun q hq => hwf q (by simp [hq])) hndrest
      (by
        intro q hq
        rcases List.mem_append.1 hq with h | h
        · exact hacc q h
        · rw [List.mem_singleton.1 h]
          exact hklen)
      (by
        intro q hq hmem
        have hkapp : keysB (acc ++ [⟨p.key, p.value⟩]) = keysB acc ++ [p.key] := by
          simp [keysB]
        rw [hkapp] at hmem
        rcases List.mem_append.1 hmem with h | h
        · exact hdisj q (by simp [hq]) h
        · exact hpnotrest ((List.mem_singleton.1 h) ▸ List.mem_map_of_mem PairB.key hq)
        )
    rw [hih]
    have heta : (⟨p.key, p.value⟩ : PairB) = p := rfl
    rw [heta]
    have happ : (acc ++ [p]) ++ rest = acc ++ p :: rest := by simp
    rw [happ]
    have harith : ctr + 1 + rest.length = ctr + (p :: rest).length := by
      simp
      omega
    rw [harith]

/-! ## Claim theorems -/

/-- C1: the claim says `settings_load` inserts, for every line with an `=`,
the trimmed text before the first `=` as the key and the trimmed text after
it (without the trailing newline) as the value.  The code instead writes the
NUL terminator at `key[key_len - 1]` and `val[val_len - 1]`, dropping the
character just before the `=` and the last character after it: loading the
single line `"ab=cd\n"` inserts key `"a"` (not `"ab"`), and looking up
`"ab"` afterwards yields the default.  (The spec's example works only because
a space precedes its `=`.) -/
theorem c1_load_drops_key_char :
    settings_loadB (some []) (some (some ['a', 'b', '=', 'c', 'd', '\n'])) (fun _ => true) 0
      = some (some [⟨['a'], ['c', 'd']⟩], true, 1) ∧
    settings_get_stringB (some [⟨['a'], ['c', 'd']⟩]) (some ['a', 'b']) (some ['D']) =
      some ['D'] := by
  decide

/-- C2: the claim says a dynamic `settings_set_string` whose allocation fails
leaves the store in its prior state.  On the replace path the code stores the
failed `realloc`'s NULL back into the pair: with the store holding
`("foo", "abc")`, setting `"foo"` to `"abcdef"` while the value `realloc`
fails (oracle entry 1) returns failure but leaves the pair as `("foo", NULL)`
— the old value is lost, and `settings_get_string` then returns NULL rather
than the previous value or the default. -/
theorem c2_realloc_failure_corrupts_pair :
    settings_set_stringD (some [⟨some ['f', 'o', 'o'], some ['a', 'b', 'c']⟩])
      (some ['f', 'o', 'o']) (some ['a', 'b', 'c', 'd', 'e', 'f']) (fun n => n != 1) 0 =
      (some [⟨some ['f', 'o', 'o'], none⟩], false, 2) ∧
    settings_get_stringD (some [⟨some ['f', 'o', 'o'], none⟩]) (some ['f', 'o', 'o'])
      (some ['D']) = none := by
  decide

/-- C3: the claim says `settings_set_int` stores the full decimal text of `v`
and `settings_get_int` reads `v` back.  In the dynamic variant
`INT_DIGITS = 8` (the `STRINGIFY` macro measures the unexpanded name
`"INT_MAX"`), so `snprintf(value_str, INT_DIGITS, "%d", v)` truncates
`12345678` to `"1234567"` and the read-back is `1234567`.  The bounded
variant (`settings.c`), which passes `CONFIG_VALUE_LENGTH` to `snprintf`,
stores the full text and round-trips the same value. -/
theorem c3_int_digits_truncates :
    settings_set_intD (some []) (some ['k']) 12345678 (fun _ => true) 0 =
      (some [⟨some ['k'], some ['1', '2', '3', '4', '5', '6', '7']⟩], true, 3) ∧
    settings_get_intD (some [⟨some ['k'], some ['1', '2', '3', '4', '5', '6', '7']⟩])
      (some ['k']) 0 = some 1234567 ∧
    settings_set_intB (some []) (some ['k']) 12345678 (fun _ => true) 0 =
      (some [⟨['k'], ['1', '2', '3', '4', '5', '6', '7', '8']⟩], true, 1) ∧
    settings_get_intB (some [⟨['k'], ['1', '2', '3', '4', '5', '6', '7', '8']⟩])
      (some ['k']) 0 = 12345678 := by
  decide

/-- C4 counterexample: the claim requires only that keys and values are free
of `=` and newline, but a key with trailing whitespace is canonicalized by
the load-side trimming: the store `{"a " ↦ "v"}` saves and reloads as
`{"a" ↦ "v"}`, so the key `"a "` answers `"v"` before the round-trip and the
default afterwards. -/
theorem c4_roundtrip_fails_with_edge_whitespace :
    settings_get_stringB (some [⟨['a', ' '], ['v']⟩]) (some ['a', ' ']) none = some ['v'] ∧
    settings_loadB (some [])
      (some ((settings_saveB (some [⟨['a', ' '], ['v']⟩]) true true).2.1))
      (fun _ => true) 0 = some (some [⟨['a'], ['v']⟩], true, 1) ∧
    settings_get_stringB (some [⟨['a'], ['v']⟩]) (some ['a', ' ']) none = none := by
  decide

/-- C4 (amended): `settings_save` followed by `settings_load` into a fresh
empty store reproduces the store exactly — same pairs in the same order,
hence the same key-to-value mapping — provided the store's keys are pairwise
distinct and, in addition to containing no `=` and no newline, every key is
nonempty with no leading or trailing ASCII whitespace and every value has no
leading or trailing ASCII whitespace (all within the bounded buffer
limits). -/
theorem c4_save_load_roundtrip (st : StoreB)
    (hwf : ∀ p ∈ st, WFpairB p) (hnd : (keysB st).Nodup) :
    settings_loadB (some []) (some ((settings_saveB (some st) true true).2.1))
      (fun _ => true) 0 = some (some st, true, st.length) := by
  have hsave : (settings_saveB (some st) true true).2.1 = some (saveContentB st) := rfl
  rw [hsave]
  show (match loadLinesB (readLines (saveContentB st)) [] (fun _ => true) 0 with
        | some r => some (some r.1, true, r.2)
        | none => none) = _
  rw [loadLinesB_saved st [] 0 hwf hnd (by simp) (by simp [keysB])]
  simp

/-- C4 witness: the round-trip theorem applied to the concrete two-pair store
`{"a" ↦ "bc", "d" ↦ ""}`. -/
theorem c4_save_load_roundtrip_witness :
    (∀ p ∈ ([⟨['a'], ['b', 'c']⟩, ⟨['d'], []⟩] : StoreB), WFpairB p) ∧
    (keysB [⟨['a'], ['b', 'c']⟩, ⟨['d'], []⟩]).Nodup ∧
    settings_loadB (some [])
      (some ((settings_saveB (some [⟨['a'], ['b', 'c']⟩, ⟨['d'], []⟩]) true true).2.1))
      (fun _ => true) 0 = some (some [⟨['a'], ['b', 'c']⟩, ⟨['d'], []⟩], true, 2) :=
  ⟨by decide, by decide,
    c4_save_load_roundtrip [⟨['a'], ['b', 'c']⟩, ⟨['d'], []⟩] (by decide) (by decide)⟩

/-- C5: over any sequence of `settings_set_string` calls on a store created
empty (with any allocation outcomes), the store never holds two pairs with
byte-for-byte equal keys, and looking any key up returns the value passed to
the most recent successful `settings_set_string` for that key (the default
when there is none). -/
theorem c5_unique_last_write (ops : List (Option (List Char) × Option (List Char)))
    (alloc : Nat → Bool) :
    (keysB (runOpsB ops alloc [] 0).1).Nodup ∧
    ∀ (k : List Char) (d : Option (List Char)),
      settings_get_stringB (some (runOpsB ops alloc [] 0).1) (some k) d =
        match lastSuccessfulSet ops alloc [] 0 k with
        | some v => some v
        | none => d := by
  obtain ⟨h1, h2, h3⟩ := runOpsB_spec ops alloc [] 0 (by simp) (by simp [keysB])
  refine ⟨h2, fun k d => ?_⟩
  rw [h3 k d]
  cases lastSuccessfulSet ops alloc [] 0 k with
  | some v => rfl
  | none => rfl

/-- C6: `settings_set_string` on an existing key replaces the value in place
— the key sequence is unchanged and the key now answers the new value — and
a new key is appended at the end; in particular inserting `A, B, C` and then
replacing `B` yields key order `A, B, C` with `B ↦ "9"`. -/
theorem c6_order_preservation (st : StoreB) (k v : List Char) (alloc : Nat → Bool)
    (ctr : Nat) (hst : ∀ p ∈ st, p.key.length < CONFIG_KEY_LENGTH)
    (hk : k.length < CONFIG_KEY_LENGTH) (hv : v.length < CONFIG_VALUE_LENGTH) :
    (k ∈ keysB st →
      ∃ st', settings_set_stringB (some st) (some k) (some v) alloc ctr =
          (some st', true, ctr) ∧
        keysB st' = keysB st ∧
        settings_get_stringB (some st') (some k) none = some v) ∧
    (k ∉ keysB st → alloc ctr = true →
      settings_set_stringB (some st) (some k) (some v) alloc ctr =
        (some (st ++ [⟨k, v⟩]), true, ctr + 1)) ∧
    keysB (runOpsB [(some ['A'], some ['1']), (some ['B'], some ['2']),
        (some ['C'], some ['3']), (some ['B'], some ['9'])] (fun _ => true) [] 0).1 =
      [['A'], ['B'], ['C']] ∧
    settings_get_stringB (some (runOpsB [(some ['A'], some ['1']), (some ['B'], some ['2']),
        (some ['C'], some ['3']), (some ['B'], some ['9'])] (fun _ => true) [] 0).1)
      (some ['B']) none = some ['9'] := by
  refine ⟨?_, ?_, by decide, by decide⟩
  · intro hmem
    obtain ⟨q, hq, hqk⟩ := List.mem_map.1 hmem
    obtain ⟨st', hcore, hkeys, hfind, _⟩ := setCoreB_mem hst hk hv ⟨q, hq, hqk⟩ alloc ctr
    refine ⟨st', ?_, hkeys, ?_⟩
    · show (some (setStringCoreB st k v alloc ctr).1, (setStringCoreB st k v alloc ctr).2.1,
        (setStringCoreB st k v alloc ctr).2.2) = (some st', true, ctr)
      rw [hcore]
    · simp [settings_get_stringB, find_pairB, hfind]
  · intro hmem hal
    have hnm : ∀ p ∈ st, p.key ≠ k := by
      intro p hp he
      exact hmem (he ▸ List.mem_map_of_mem PairB.key hp)
    have hcore := setCoreB_not_mem hst hk hv hnm alloc ctr
    rw [if_pos hal] at hcore
    show (some (setStringCoreB st k v alloc ctr).1, (setStringCoreB st k v alloc ctr).2.1,
      (setStringCoreB st k v alloc ctr).2.2) = (some (st ++ [⟨k, v⟩]), true, ctr + 1)
    rw [hcore]

/-- C6 witness: replacing the existing key `"A"` keeps the key list, and
setting the fresh key `"B"` appends it. -/
theorem c6_order_preservation_witness :
    (∃ st', settings_set_stringB (some [⟨['A'], ['1']⟩]) (some ['A']) (some ['2'])
        (fun _ => true) 5 = (some st', true, 5) ∧
      keysB st' = keysB [⟨['A'], ['1']⟩] ∧
      settings_get_stringB (some st') (some ['A']) none = some ['2']) ∧
    settings_set_stringB (some [⟨['A'], ['1']⟩]) (some ['B']) (some ['2'])
      (fun _ => true) 5 = (some [⟨['A'], ['1']⟩, ⟨['B'], ['2']⟩], true, 6) :=
  ⟨(c6_order_preservation [⟨['A'], ['1']⟩] ['A'] ['2'] (fun _ => true) 5
      (by decide) (by decide) (by decide)).1 (by decide),
    (c6_order_preservation [⟨['A'], ['1']⟩] ['B'] ['2'] (fun _ => true) 5
      (by decide) (by decide) (by decide)).2.1 (by decide) rfl⟩

/-- C7: the claim says `trim` turns every empty or all-whitespace input into
the empty string.  For nonempty input the code does trim both ends (second
and third conjunct), but on the **empty** string `end = strlen(str) - 1`
underflows to `SIZE_MAX` and `str[end]` is read out of bounds — undefined
behavior (first conjunct: the model's UB marker), not the claimed empty
result. -/
theorem c7_trim_empty_is_ub :
    trim [] = none ∧ trim [' ', ' '] = some [] ∧ trim [' ', 'a', ' '] = some ['a'] := by
  decide

/-- C8: in the bounded variant `settings_set_string` fails without mutating
whenever `strlen(key) >= CONFIG_KEY_LENGTH` or `strlen(value) >=
CONFIG_VALUE_LENGTH`, and shorter keys and values pass this check (the call
then behaves as the post-check body). -/
theorem c8_bounded_length_check (st : StoreB) (k v : List Char) (alloc : Nat → Bool)
    (ctr : Nat) :
    ((CONFIG_KEY_LENGTH ≤ k.length ∨ CONFIG_VALUE_LENGTH ≤ v.length) →
      settings_set_stringB (some st) (some k) (some v) alloc ctr = (some st, false, ctr)) ∧
    (k.length < CONFIG_KEY_LENGTH → v.length < CONFIG_VALUE_LENGTH →
      settings_set_stringB (some st) (some k) (some v) alloc ctr =
        (some (setStringBodyB st k v alloc ctr).1, (setStringBodyB st k v alloc ctr).2.1,
          (setStringBodyB st k v alloc ctr).2.2)) := by
  constructor
  · intro h
    show (some (setStringCoreB st k v alloc ctr).1, (setStringCoreB st k v alloc ctr).2.1,
      (setStringCoreB st k v alloc ctr).2.2) = (some st, false, ctr)
    unfold setStringCoreB
    rw [if_pos h]
  · intro h1 h2
    show (some (setStringCoreB st k v alloc ctr).1, (setStringCoreB st k v alloc ctr).2.1,
      (setStringCoreB st k v alloc ctr).2.2) = _
    rw [setStringCoreB_passes h1 h2]

/-- C8 witness: a 128-character key is rejected with the store untouched; a
short key and value pass the check. -/
theorem c8_bounded_length_check_witness :
    settings_set_stringB (some [⟨['a'], ['b']⟩]) (some (List.replicate 128 'x')) (some ['v'])
      (fun _ => true) 3 = (some [⟨['a'], ['b']⟩], false, 3) ∧
    settings_set_stringB (some []) (some ['k']) (some ['v']) (fun _ => true) 0 =
      (some (setStringBodyB [] ['k'] ['v'] (fun _ => true) 0).1,
        (setStringBodyB [] ['k'] ['v'] (fun _ => true) 0).2.1,
        (setStringBodyB [] ['k'] ['v'] (fun _ => true) 0).2.2) :=
  ⟨(c8_bounded_length_check [⟨['a'], ['b']⟩] (List.replicate 128 'x') ['v']
      (fun _ => true) 3).1 (Or.inl (by simp [CONFIG_KEY_LENGTH])),
    (c8_bounded_length_check [] ['k'] ['v'] (fun _ => true) 0).2 (by decide) (by decide)⟩

/-- C9: with a null store handle, `find_pair` finds nothing, so
`settings_get_string`, `settings_get_int` and `settings_get_float` all return
the supplied default, for every key (null included) and every default. -/
theorem c9_null_store_defaults (key dS : Option (List Char)) (dI : Int)
    (F : Type) (atofModel : List Char → F) (dF : F) :
    settings_get_stringB none key dS = dS ∧
    settings_get_intB none key dI = dI ∧
    settings_get_floatB atofModel none key dF = dF :=
  ⟨rfl, rfl, rfl⟩

/-- C10: `settings_save` only reads the pair list: for every store handle,
path and open outcome, the store after the call is exactly the store before
it. -/
theorem c10_save_preserves_store (st : Option StoreB) (pathPresent openOk : Bool) :
    (settings_saveB st pathPresent openOk).2.2 = st := by
  cases st <;> cases pathPresent <;> cases openOk <;> rfl

end Settings
